import Mathlib

/-!
Verification development for the counterpush-backend repository.

The development shallowly embeds the parts of the source relevant to the
frozen claims:

* the team-average Elo rating engine (`calculateTeamAverageElo`,
  `calculateEloChange`, `processMatchResult` from the database modules;
  JavaScript floating-point numbers are modelled by real numbers, and the
  Elo values stored per player — which are always integers — by `ℤ`);
* the rank lookup table (`getRank` from both database variants, together
  with the two `CONFIG.RANKS` threshold tables);
* the purge (overflow elimination) routine `runPurge` from the
  immunity-carrying server variant, with `Math.random` modelled by an
  oracle `ℕ → ℕ` whose draws are taken modulo the current pool size;
* the lobby state machine of `server.js`: one Lean function per socket
  handler, acting on a `Lobby` record.  External side effects (voice
  channels, Discord notifications, the player store writes) are not part
  of the lobby state; the single relevant persistence call,
  `db.processMatchResult`, is counted by the ghost field `processed`, and
  the arming of the purge `setTimeout` callback by the ghost counter
  `purgeTimers`.  The JavaScript dynamic `lobby.score` object is modelled
  by an association list whose values are `Option ℤ` (`none` models `NaN`);
  a key that is absent models a property that is not present on the object.
  A handler that would throw a `TypeError` (reading a property of
  `undefined`) is modelled by the `crashed` outcome, with the state left
  as it was at the moment of the throw.
-/

namespace Counterpush

/-! ## Configuration constants (src/config.js) -/

/-- `CONFIG.STARTING_ELO` of the first config variant. -/
def STARTING_ELO : ℤ := 1000

/-- `BASE_ELO` (the per-match rating pool) from `calculateEloChange`. -/
def BASE_ELO : ℤ := 50

/-! ## Rating engine (src/unnamed/part_000 lines 250-351, src/unnamed/part_003
lines 314-404; the two variants have identical rating code) -/

/-- A stored player record, restricted to the fields the rating engine
reads.  Elo values persisted by the engine are always integers. -/
structure Player where
  odiscordId : String
  elo : ℤ
deriving DecidableEq, Repr

/-- JavaScript `p.elo || CONFIG.STARTING_ELO`: an elo of `0` is falsy and
falls back to the starting rating. -/
def eloOrDefault (e : ℤ) : ℤ :=
  if e = 0 then STARTING_ELO else e

/-- `calculateTeamAverageElo`: arithmetic mean of the members' elo values,
with the `|| STARTING_ELO` fallback per member; an empty team defaults to
the starting rating. -/
noncomputable def calculateTeamAverageElo (team : List Player) : ℝ :=
  if team.length = 0 then (STARTING_ELO : ℝ)
  else ((team.map fun p => eloOrDefault p.elo).sum : ℤ) / (team.length : ℝ)

/-- The logistic expectation `1 / (1 + 10^((loserAvg - winnerAvg)/400))`
computed inside `calculateEloChange`. -/
noncomputable def expectedWinner (winnerAvgElo loserAvgElo : ℝ) : ℝ :=
  1 / (1 + (10 : ℝ) ^ ((loserAvgElo - winnerAvgElo) / 400))

/-- The un-clamped `Math.round(BASE_ELO * (1 - expectedWinner + 0.5) / 1.5)`
from `calculateEloChange`. -/
noncomputable def rawEloChange (winnerAvgElo loserAvgElo : ℝ) : ℤ :=
  round ((BASE_ELO : ℝ) * (1 - expectedWinner winnerAvgElo loserAvgElo + 0.5) / 1.5)

/-- `calculateEloChange`: the rounded change, clamped to the band `[20, 30]`
by `Math.max(20, Math.min(30, eloChange))`. -/
noncomputable def calculateEloChange (winnerAvgElo loserAvgElo : ℝ) : ℤ :=
  max 20 (min 30 (rawEloChange winnerAvgElo loserAvgElo))

/-- One `{odiscordId, oldElo, newElo, change}` entry of the results object
built by `processMatchResult`. -/
structure PlayerResult where
  odiscordId : String
  oldElo : ℤ
  newElo : ℤ
  change : ℤ
deriving DecidableEq, Repr

/-- The results object of `processMatchResult`, restricted to the fields
the claims are about. -/
structure MatchResults where
  winnerAvgElo : ℤ
  loserAvgElo : ℤ
  eloGain : ℤ
  eloLoss : ℤ
  winners : List PlayerResult
  losers : List PlayerResult
deriving DecidableEq, Repr

/-- `processMatchResult` restricted to its rating computation: the stored
update for each player writes exactly the `newElo` recorded in the results
entry, so the per-player entries fully describe the rating update.  The
winners and losers lists are the already-resolved player records (the
source filters out unknown ids before this computation). -/
noncomputable def processMatchResult (winners losers : List Player) : MatchResults :=
  let winnerAvgElo := calculateTeamAverageElo winners
  let loserAvgElo := calculateTeamAverageElo losers
  let eloChange := calculateEloChange winnerAvgElo loserAvgElo
  let eloLoss := 50 - eloChange
  { winnerAvgElo := round winnerAvgElo
    loserAvgElo := round loserAvgElo
    eloGain := eloChange
    eloLoss := eloLoss
    winners := winners.map fun p =>
      { odiscordId := p.odiscordId
        oldElo := p.elo
        newElo := p.elo + eloChange
        change := eloChange }
    losers := losers.map fun p =>
      { odiscordId := p.odiscordId
        oldElo := p.elo
        newElo := max 0 (p.elo - eloLoss)
        change := -eloLoss } }

/-! ## Rank lookup (src/unnamed/part_000 lines 357-365, part_003 lines
410-418, with the `CONFIG.RANKS` table of the second config variant;
src/unnamed/part_001 lines 393-400 with the table of the first variant) -/

/-- `getRank` of part_000/part_003 over the Netherite…Copper threshold
table `{Netherite: 1500, Diamond: 1300, Amethyst: 1150, Emerald: 1000,
Gold: 850, Iron: 700, Copper: 0}`. -/
def getRank (elo : ℤ) : String :=
  if 1500 ≤ elo then "Netherite"
  else if 1300 ≤ elo then "Diamond"
  else if 1150 ≤ elo then "Amethyst"
  else if 1000 ≤ elo then "Emerald"
  else if 850 ≤ elo then "Gold"
  else if 700 ≤ elo then "Iron"
  else "Copper"

/-- `getRank` of part_001 over the S…F threshold table
`{S: 1400, A: 1250, B: 1100, C: 950, D: 800, F: 0}`. -/
def getRankV1 (elo : ℤ) : String :=
  if 1400 ≤ elo then "S"
  else if 1250 ≤ elo then "A"
  else if 1100 ≤ elo then "B"
  else if 950 ≤ elo then "C"
  else if 800 ≤ elo then "D"
  else "F"

/-- The rank names of the Netherite…Copper table, lowest tier first. -/
def RANK_NAMES : List String :=
  ["Copper", "Iron", "Gold", "Emerald", "Amethyst", "Diamond", "Netherite"]

/-- The rank names of the S…F table, lowest tier first. -/
def RANK_NAMES_V1 : List String := ["F", "D", "C", "B", "A", "S"]

/-- Position of a rank name in the threshold order of the Netherite table
(higher = better). -/
def rankIndex (r : String) : ℕ :=
  if r = "Netherite" then 6
  else if r = "Diamond" then 5
  else if r = "Amethyst" then 4
  else if r = "Emerald" then 3
  else if r = "Gold" then 2
  else if r = "Iron" then 1
  else 0

/-- Position of a rank name in the threshold order of the S…F table. -/
def rankIndexV1 (r : String) : ℕ :=
  if r = "S" then 5
  else if r = "A" then 4
  else if r = "B" then 3
  else if r = "C" then 2
  else if r = "D" then 1
  else 0

/-- The threshold index hit by a rating in the Netherite table (the chain
of comparisons of `getRank`, keeping only the tier position). -/
def getRankIdx (elo : ℤ) : ℕ :=
  if 1500 ≤ elo then 6
  else if 1300 ≤ elo then 5
  else if 1150 ≤ elo then 4
  else if 1000 ≤ elo then 3
  else if 850 ≤ elo then 2
  else if 700 ≤ elo then 1
  else 0

/-- The threshold index hit by a rating in the S…F table. -/
def getRankIdxV1 (elo : ℤ) : ℕ :=
  if 1400 ≤ elo then 5
  else if 1250 ≤ elo then 4
  else if 1100 ≤ elo then 3
  else if 950 ≤ elo then 2
  else if 800 ≤ elo then 1
  else 0

/-! ## Purge elimination loop (src/server.js lines 938-979 and
src/unnamed/part_004 lines 1996-2092)

The elimination loop draws `Math.floor(Math.random() * pool.length)` and
splices that entry out of the eliminatable pool, removing the same player
from the roster.  The random draws are an oracle `rand : ℕ → ℕ` indexed by
the iteration number, taken modulo the current pool size (every value in
`[0, pool.length)` is reachable, and only those). -/

/-- The `for (let i = 0; i < toEliminate; i++)` loop shared by both purge
variants: repeatedly pick a random member of `pool`, remove it from the
pool and filter it out of `players`; stop early when the pool is empty.
Returns the eliminated players in elimination order together with the
remaining roster. -/
def purgeLoop (rand : ℕ → ℕ) : ℕ → ℕ → List String → List String →
    List String × List String
  | 0, _, _, players => ([], players)
  | n + 1, i, pool, players =>
    if pool.length = 0 then ([], players)
    else
      let idx := rand i % pool.length
      let p := pool.getD idx ""
      let rest := purgeLoop rand n (i + 1) (pool.eraseIdx idx)
        (players.filter fun q => q ≠ p)
      (p :: rest.1, rest.2)

/-- Result of a purge run, restricted to what the claims observe:
the surviving roster, the eliminated players (in order), the sessions
cleared (`db.clearUserSession` is called once per eliminated player), the
updated single-use purge-immunity set, and the phase the lobby is left in
once the staged announcements complete. -/
structure PurgeResult where
  newPlayers : List String
  eliminated : List String
  sessionsCleared : List String
  newPurgeImmunity : List String
  phaseAfter : String
deriving Repr

/-- The `eliminatablePlayers` pool of part_004's `runPurge`: roster
members other than the host who hold neither the single-use purge
immunity nor the currently-available daily immunity. -/
def purgePool (players : List String) (hostId : String)
    (purgeImmunity : List String) (dailyImmune : String → Bool) : List String :=
  players.filter fun p =>
    p ≠ hostId ∧ p ∉ purgeImmunity ∧ dailyImmune p = false

/-- `runPurge` of src/unnamed/part_004 (lines 1996-2092), the immunity
variant, taken atomically together with its completion callback (which
sets the phase to captain-select).  `purgeImmunity` is the single-use
immunity set; `dailyImmune uid` models `!immuneUntil || immuneUntil < now`
(the rolling-cooldown immunity being currently available for `uid`).
The eliminatable pool excludes the host and both kinds of immune player;
players whose immunity fired have it consumed (purge immunity deleted,
daily cooldown restarted — the cooldown timestamps themselves are outside
the model); each eliminated player is granted purge immunity for their
next lobby. -/
def runPurge (players : List String) (hostId : String) (maxPlayers : ℕ)
    (purgeImmunity : List String) (dailyImmune : String → Bool)
    (rand : ℕ → ℕ) : PurgeResult :=
  let toEliminate := players.length - maxPlayers
  let immunePlayers := players.filter fun p => p ∈ purgeImmunity
  let eliminatablePlayers := purgePool players hostId purgeImmunity dailyImmune
  let res := purgeLoop rand toEliminate 0 eliminatablePlayers players
  { newPlayers := res.2
    eliminated := res.1
    sessionsCleared := res.1
    newPurgeImmunity :=
      (purgeImmunity.filter fun p => p ∉ immunePlayers) ++ res.1
    phaseAfter := "captain-select" }

/-! ## Lobby state machine (src/server.js socket handlers) -/

/-- Lobby lifecycle phase. -/
inductive Phase
  | waiting
  | purging
  | captainSelect
  | drafting
  | playing
  | finished
deriving DecidableEq, Repr

/-- The team on the clock during drafting (`lobby.currentTurn`). -/
inductive Side
  | team1
  | team2
deriving DecidableEq, Repr

/-- The opposite side (`currentTurn === 'team1' ? 'team2' : 'team1'`). -/
def Side.other : Side → Side
  | .team1 => .team2
  | .team2 => .team1

/-- A JavaScript number as stored in the dynamic `lobby.score` object:
`some v` is the integer `v`, `none` is `NaN`. -/
abbrev JSNum := Option ℤ

/-- Read `obj[k]`: `none` when the property is absent (`undefined`). -/
def jsGet (s : List (String × JSNum)) (k : String) : Option JSNum :=
  (s.find? fun p => p.1 = k).map fun p => p.2

/-- Write `obj[k] = v`, creating the property if absent. -/
def jsSet (s : List (String × JSNum)) (k : String) (v : JSNum) :
    List (String × JSNum) :=
  if s.any fun p => p.1 = k then
    s.map fun p => if p.1 = k then (k, v) else p
  else s ++ [(k, v)]

/-- `obj[k]++`: a present integer is incremented; a present `NaN` stays
`NaN`; an absent property becomes `NaN` (`undefined + 1`). -/
def jsInc (s : List (String × JSNum)) (k : String) : List (String × JSNum) :=
  jsSet s k (match jsGet s k with
    | some (some v) => some (v + 1)
    | _ => none)

/-- `x >= n` on a possibly absent, possibly `NaN` property: comparisons
against `undefined` or `NaN` are false. -/
def jsGe (x : Option JSNum) (n : ℤ) : Bool :=
  match x with
  | some (some v) => n ≤ v
  | _ => false

/-- The in-memory lobby object of `server.js`, restricted to the fields
the handlers read or write.  Players are identified by their
`odiscordId`.  Display-only payloads (`purgeData`, `eloResults`, the
voice-channel ids) are outside the model; `purgeTimers` counts armed
`setTimeout(runPurge, 5000)` callbacks, and `processed` counts the
`db.processMatchResult` invocations performed on this lobby. -/
structure Lobby where
  hostId : String
  players : List String
  maxPlayers : ℕ
  phase : Phase
  captains : List String
  team1 : List String
  team2 : List String
  currentTurn : Option Side
  picksLeft : ℤ
  score : List (String × JSNum)
  isPublic : Bool
  hasLobbyVC : Bool
  purgeTimers : ℕ
  processed : ℕ
deriving DecidableEq, Repr

/-- `createLobby` (src/server.js lines 526-557): the host is the sole
roster member, phase `waiting`, empty captains and teams, zero score.
`hasLobbyVC` records whether the (externally created) lobby voice channel
exists. -/
def initLobby (hostId : String) (maxPlayers : ℕ) (isPublic hasLobbyVC : Bool) :
    Lobby :=
  { hostId := hostId
    players := [hostId]
    maxPlayers := maxPlayers
    phase := .waiting
    captains := []
    team1 := []
    team2 := []
    currentTurn := none
    picksLeft := 0
    score := [("team1", some 0), ("team2", some 0)]
    isPublic := isPublic
    hasLobbyVC := hasLobbyVC
    purgeTimers := 0
    processed := 0 }

/-- How a handler invocation ended: a state-mutating success, a rejection
(`socket.emit('error', …)` and return before any mutation), or an uncaught
JavaScript `TypeError` (the state is as it was at the throw). -/
inductive Outcome
  | applied
  | rejected
  | crashed
deriving DecidableEq, Repr

/-- Total picked and per-team bookkeeping used by the draft handler. -/
def totalPicked (l : Lobby) : ℕ := l.team1.length + l.team2.length

/-- `joinLobby` (lines 816-864): an existing member may rejoin (no state
change); new players may join only in the waiting phase, with no
roster size limit. -/
def joinStep (uid : String) (l : Lobby) : Option Lobby × Outcome :=
  if uid ∈ l.players then (some l, .applied)
  else if l.phase ≠ Phase.waiting then (some l, .rejected)
  else (some { l with players := l.players ++ [uid] }, .applied)

/-- `leaveLobby` (lines 1301-1324): only in waiting; the host leaving
destroys the lobby, any other member is filtered out of the roster. -/
def leaveStep (uid : String) (l : Lobby) : Option Lobby × Outcome :=
  if l.phase ≠ Phase.waiting then (some l, .rejected)
  else if uid = l.hostId then (none, .applied)
  else (some { l with players := l.players.filter fun p => p ≠ uid }, .applied)

/-- `kickPlayer` (lines 1326-1352): host-only, waiting phase, the host
cannot kick themself. -/
def kickStep (issuer uid : String) (l : Lobby) : Option Lobby × Outcome :=
  if issuer ≠ l.hostId then (some l, .rejected)
  else if l.phase ≠ Phase.waiting then (some l, .rejected)
  else if uid = l.hostId then (some l, .rejected)
  else (some { l with players := l.players.filter fun p => p ≠ uid }, .applied)

/-- `startCaptainSelect` (lines 880-935): host-only, at least 4 players,
the voice-channel gate for public lobbies (`allInVC` is the externally
observed answer of `areAllPlayersInLobbyVC`).  There is no phase guard in
the source.  A roster above capacity moves to `purging` and arms a
`runPurge` timer; otherwise the phase becomes captain-select. -/
def startCaptainSelectStep (issuer : String) (allInVC : Bool) (l : Lobby) :
    Option Lobby × Outcome :=
  if issuer ≠ l.hostId then (some l, .rejected)
  else if l.players.length < 4 then (some l, .rejected)
  else if l.isPublic ∧ l.hasLobbyVC ∧ allInVC = false then (some l, .rejected)
  else if l.maxPlayers < l.players.length then
    (some { l with phase := .purging, purgeTimers := l.purgeTimers + 1 }, .applied)
  else (some { l with phase := .captainSelect }, .applied)

/-- The `runPurge` of src/server.js (lines 938-979, the variant without
immunities) taken atomically with its completion callback: fires an armed
timer, eliminates `players.length - maxPlayers` random non-host players
(as many as available), and sets the phase to captain-select.  The source
callback performs no phase or liveness re-check before running. -/
def purgeFireStep (rand : ℕ → ℕ) (l : Lobby) : Option Lobby × Outcome :=
  if l.purgeTimers = 0 then (some l, .rejected)
  else
    let toEliminate := l.players.length - l.maxPlayers
    let pool := l.players.filter fun p => p ≠ l.hostId
    let res := purgeLoop rand toEliminate 0 pool l.players
    (some { l with
        players := res.2
        phase := .captainSelect
        purgeTimers := l.purgeTimers - 1 }, .applied)

/-- `selectCaptain` (lines 981-1022): host-only, captain-select phase, the
player must be in the roster and not already a captain.  The first captain
seeds team1, the second seeds team2 and starts drafting with team1 on the
clock and one pick; with any other captain count the push has no further
effect. -/
def selectCaptainStep (issuer uid : String) (l : Lobby) : Option Lobby × Outcome :=
  if issuer ≠ l.hostId then (some l, .rejected)
  else if l.phase ≠ Phase.captainSelect then (some l, .rejected)
  else if uid ∉ l.players then (some l, .rejected)
  else if uid ∈ l.captains then (some l, .rejected)
  else
    let l1 : Lobby := { l with captains := l.captains ++ [uid] }
    if l1.captains.length = 1 then
      (some { l1 with team1 := l1.team1 ++ [uid] }, .applied)
    else if l1.captains.length = 2 then
      (some { l1 with
          team2 := l1.team2 ++ [uid]
          phase := .drafting
          currentTurn := some .team1
          picksLeft := 1 }, .applied)
    else (some l1, .applied)

/-- `removeCaptain` (lines 1024-1056): host-only, captain-select phase;
removes the first matching captain and filters the player out of both
teams. -/
def removeCaptainStep (issuer uid : String) (l : Lobby) : Option Lobby × Outcome :=
  if issuer ≠ l.hostId then (some l, .rejected)
  else if l.phase ≠ Phase.captainSelect then (some l, .rejected)
  else if uid ∉ l.captains then (some l, .rejected)
  else
    (some { l with
        captains := l.captains.erase uid
        team1 := l.team1.filter fun p => p ≠ uid
        team2 := l.team2.filter fun p => p ≠ uid }, .applied)

/-- `startPlaying` (lines 1125-1142): phase to playing, turn cleared (the
voice-channel work is external). -/
def startPlaying (l : Lobby) : Lobby :=
  { l with phase := .playing, currentTurn := none }

/-- The mutating tail of the `draftPick` handler (lines 1090-1122), after
all validation has passed: push the pick onto the on-turn team, decrement
`picksLeft`; finish the draft when the roster capacity is reached, else on
an exhausted allotment pass the turn and recompute
`min(2, seatsRemaining, unpicked)`, finishing if that is zero. -/
def draftApply (s : Side) (uid : String) (l : Lobby) : Option Lobby × Outcome :=
  let l2 : Lobby :=
    match s with
    | .team1 => { l with team1 := l.team1 ++ [uid], picksLeft := l.picksLeft - 1 }
    | .team2 => { l with team2 := l.team2 ++ [uid], picksLeft := l.picksLeft - 1 }
  let total : ℤ := totalPicked l2
  let playersPerTeam : ℤ := (l2.maxPlayers : ℤ) / 2
  if (l2.maxPlayers : ℤ) ≤ total then (some (startPlaying l2), .applied)
  else if l2.picksLeft = 0 then
    let s2 := s.other
    let unpicked : ℤ := (l2.players.length : ℤ) - total
    let remaining : ℤ :=
      match s2 with
      | .team1 => playersPerTeam - l2.team1.length
      | .team2 => playersPerTeam - l2.team2.length
    let l3 : Lobby := { l2 with
      currentTurn := some s2
      picksLeft := min 2 (min remaining unpicked) }
    if l3.picksLeft = 0 then (some (startPlaying l3), .applied)
    else (some l3, .applied)
  else (some l2, .applied)

/-- `draftPick` (lines 1058-1123): drafting phase only; the issuer must be
the on-turn captain `teams[currentTurn][0]` — reading the member of an
empty team throws; the pick must be an un-picked, non-captain roster
member. -/
def draftPickStep (issuer uid : String) (l : Lobby) : Option Lobby × Outcome :=
  if l.phase ≠ Phase.drafting then (some l, .rejected)
  else
    match (if l.currentTurn = some Side.team1 then l.team1.head? else l.team2.head?) with
    | none => (some l, .crashed)
    | some cap =>
      if issuer ≠ cap then (some l, .rejected)
      else if uid ∉ l.players then (some l, .rejected)
      else if uid ∈ l.captains ∨ uid ∈ l.team1 ∨ uid ∈ l.team2 then (some l, .rejected)
      else
        match l.currentTurn with
        | none => (some l, .crashed)
        | some s => draftApply s uid l

/-- `finishMatch` (lines 1201-1274) restricted to the lobby state: phase
to finished and one `db.processMatchResult` invocation (counted by the
ghost field; the match-record write, stat accrual and notifications are
external side effects of that same single invocation). -/
def finishMatchStep (l : Lobby) : Lobby :=
  { l with phase := .finished, processed := l.processed + 1 }

/-- `addScore` (lines 1144-1171): playing phase, host-only; then
`lobby.score[team]++` with no validation of `team`, finishing the match
when either real team's score has reached 2. -/
def addScoreStep (issuer team : String) (l : Lobby) : Option Lobby × Outcome :=
  if l.phase ≠ Phase.playing then (some l, .rejected)
  else if issuer ≠ l.hostId then (some l, .rejected)
  else
    let l1 : Lobby := { l with score := jsInc l.score team }
    if jsGe (jsGet l1.score "team1") 2 ∨ jsGe (jsGet l1.score "team2") 2 then
      (some (finishMatchStep l1), .applied)
    else (some l1, .applied)

/-- `declareWinner` (lines 1173-1199): playing phase, host-only; sets
`score[winnerTeam] = 2`, zeroes the other slot (`'team1'` unless the
argument is literally `'team1'`), and finishes the match unconditionally. -/
def declareWinnerStep (issuer winnerTeam : String) (l : Lobby) :
    Option Lobby × Outcome :=
  if l.phase ≠ Phase.playing then (some l, .rejected)
  else if issuer ≠ l.hostId then (some l, .rejected)
  else
    let s1 := jsSet l.score winnerTeam (some 2)
    let s2 := jsSet s1 (if winnerTeam = "team1" then "team2" else "team1") (some 0)
    (some (finishMatchStep { l with score := s2 }), .applied)

/-- `resetLobby` (lines 1276-1299): host-only, no phase guard; returns to
waiting with captains, teams, turn and score cleared, roster kept. -/
def resetLobbyStep (issuer : String) (l : Lobby) : Option Lobby × Outcome :=
  if issuer ≠ l.hostId then (some l, .rejected)
  else
    (some { l with
        phase := .waiting
        captains := []
        team1 := []
        team2 := []
        currentTurn := none
        picksLeft := 0
        score := [("team1", some 0), ("team2", some 0)] }, .applied)

/-- `closeLobby` (lines 1354-1367): host-only; destroys the lobby. -/
def closeLobbyStep (issuer : String) (l : Lobby) : Option Lobby × Outcome :=
  if issuer ≠ l.hostId then (some l, .rejected)
  else (none, .applied)

/-- The inbound commands of the transport adapter that mutate a single
lobby, each carrying its issuer where the handler reads
`socket.odiscordId`.  `purgeFire` is the armed `runPurge` timer callback
(with its randomness oracle); `startCaptainSelect` carries the externally
observed voice-channel answer. -/
inductive Cmd
  | join (uid : String)
  | leave (uid : String)
  | kick (issuer uid : String)
  | startCaptainSelect (issuer : String) (allInVC : Bool)
  | purgeFire (rand : ℕ → ℕ)
  | selectCaptain (issuer uid : String)
  | removeCaptain (issuer uid : String)
  | draftPick (issuer uid : String)
  | addScore (issuer team : String)
  | declareWinner (issuer team : String)
  | resetLobby (issuer : String)
  | closeLobby (issuer : String)

/-- Dispatch of one validated command to its handler. -/
def step (l : Lobby) : Cmd → Option Lobby × Outcome
  | .join uid => joinStep uid l
  | .leave uid => leaveStep uid l
  | .kick issuer uid => kickStep issuer uid l
  | .startCaptainSelect issuer allInVC => startCaptainSelectStep issuer allInVC l
  | .purgeFire rand => purgeFireStep rand l
  | .selectCaptain issuer uid => selectCaptainStep issuer uid l
  | .removeCaptain issuer uid => removeCaptainStep issuer uid l
  | .draftPick issuer uid => draftPickStep issuer uid l
  | .addScore issuer team => addScoreStep issuer team l
  | .declareWinner issuer team => declareWinnerStep issuer team l
  | .resetLobby issuer => resetLobbyStep issuer l
  | .closeLobby issuer => closeLobbyStep issuer l

/-- Apply a command, keeping the current state if the handler rejected it
(the lobby object is unchanged on rejection) — used to run concrete
command traces. -/
def applyCmd (l : Lobby) (c : Cmd) : Lobby := ((step l c).1).getD l

/-- Run a list of commands in order. -/
def runCmds (l : Lobby) (cs : List Cmd) : Lobby := cs.foldl applyCmd l

/-- The lobby states reachable from lobby creation through the socket
handlers (including timer callbacks). -/
inductive Reachable : Lobby → Prop
  | init (hostId : String) (maxPlayers : ℕ) (isPublic hasLobbyVC : Bool) :
      Reachable (initLobby hostId maxPlayers isPublic hasLobbyVC)
  | next (l : Lobby) (c : Cmd) (l2 : Lobby) (o : Outcome) :
      Reachable l → step l c = (some l2, o) → Reachable l2

/-! ## Draft bookkeeping used to state the drafting claims -/

/-- `playersPerTeam = lobby.maxPlayers / 2` (exact for the even capacities
the data model prescribes). -/
def halfZ (l : Lobby) : ℤ := (l.maxPlayers : ℤ) / 2

/-- `unpickedPlayers = lobby.players.length - totalPicked`. -/
def unpickedZ (l : Lobby) : ℤ := (l.players.length : ℤ) - (totalPicked l : ℤ)

/-- `lobby.teams[side]`. -/
def teamOf (l : Lobby) : Side → List String
  | .team1 => l.team1
  | .team2 => l.team2

/-- The drafting state produced by selecting the second captain from an
uncorrupted captain-select phase: team1 holds the first captain, team2 the
second, team1 on the clock with one pick; the roster (at least the 4
players required to begin selection, with distinct ids) contains both
captains, and the capacity is an even integer that is at least 4, as the
data model prescribes. -/
def DraftEntry (l : Lobby) : Prop :=
  l.phase = Phase.drafting ∧
  l.currentTurn = some Side.team1 ∧
  l.picksLeft = 1 ∧
  (∃ c1 c2, l.captains = [c1, c2] ∧ l.team1 = [c1] ∧ l.team2 = [c2]) ∧
  (∀ x ∈ l.team1 ++ l.team2, x ∈ l.players) ∧
  l.players.Nodup ∧
  (l.team1 ++ l.team2).Nodup ∧
  4 ≤ l.players.length ∧
  4 ≤ l.maxPlayers ∧
  2 ∣ l.maxPlayers

/-- The inductive invariant maintained by `draftPick`: teams stay within
`maxPlayers / 2`, the total picked stays within capacity, and while the
phase is still drafting the on-turn team has room for its whole remaining
allotment, at least one pick is pending, and the allotment never exceeds
the un-picked players. -/
def DraftInv (l : Lobby) : Prop :=
  4 ≤ l.maxPlayers ∧
  2 ∣ l.maxPlayers ∧
  l.players.Nodup ∧
  (l.team1 ++ l.team2).Nodup ∧
  (∀ x ∈ l.team1 ++ l.team2, x ∈ l.players) ∧
  (l.team1.length : ℤ) ≤ halfZ l ∧
  (l.team2.length : ℤ) ≤ halfZ l ∧
  (totalPicked l : ℤ) ≤ (l.maxPlayers : ℤ) ∧
  (l.phase = Phase.drafting →
    ∃ s, l.currentTurn = some s ∧
      1 ≤ l.picksLeft ∧
      l.picksLeft ≤ unpickedZ l ∧
      ((teamOf l s).length : ℤ) + l.picksLeft ≤ halfZ l ∧
      (totalPicked l : ℤ) < (l.maxPlayers : ℤ))

/-- Run a sequence of draft-pick commands (issuer, pick) in order. -/
def draftRun (l : Lobby) (picks : List (String × String)) : Lobby :=
  picks.foldl (fun acc pr => applyCmd acc (Cmd.draftPick pr.1 pr.2)) l

/-! ## Concrete fixtures used by the counterexample and witness theorems -/

/-- A lobby of capacity 4 whose host `H` invited `A`, `B`, `C`, started
captain select, made `A` and `B` captains (entering drafting), then —
`startCaptainSelect` having no phase guard — re-issued start-captain-select
from the drafting phase and selected `C` as a third captain. -/
def thirdCaptainTrace : List Cmd :=
  [ Cmd.join "A", Cmd.join "B", Cmd.join "C",
    Cmd.startCaptainSelect "H" true,
    Cmd.selectCaptain "H" "A", Cmd.selectCaptain "H" "B",
    Cmd.startCaptainSelect "H" true,
    Cmd.selectCaptain "H" "C" ]

/-- The lobby state reached by `thirdCaptainTrace`. -/
def thirdCaptainLobby : Lobby := runCmds (initLobby "H" 4 false false) thirdCaptainTrace

/-- As above but after re-entering captain-select the host un-selects
captain `A` (emptying team1) and selects `C`, whose selection — captain
count back at two — re-enters drafting with team1 empty. -/
def emptyTeamTrace : List Cmd :=
  [ Cmd.join "A", Cmd.join "B", Cmd.join "C",
    Cmd.startCaptainSelect "H" true,
    Cmd.selectCaptain "H" "A", Cmd.selectCaptain "H" "B",
    Cmd.startCaptainSelect "H" true,
    Cmd.removeCaptain "H" "A",
    Cmd.selectCaptain "H" "C" ]

/-- The lobby state reached by `emptyTeamTrace`. -/
def emptyTeamLobby : Lobby := runCmds (initLobby "H" 4 false false) emptyTeamTrace

/-- A full clean run to the playing phase: captains `A` and `B`, `A`
drafts `C`, `B` drafts `H`, capacity reached. -/
def playingTrace : List Cmd :=
  [ Cmd.join "A", Cmd.join "B", Cmd.join "C",
    Cmd.startCaptainSelect "H" true,
    Cmd.selectCaptain "H" "A", Cmd.selectCaptain "H" "B",
    Cmd.draftPick "A" "C",
    Cmd.draftPick "B" "H" ]

/-- The playing-phase lobby reached by `playingTrace`. -/
def playingLobby : Lobby := runCmds (initLobby "H" 4 false false) playingTrace

/-- The lobby produced by `addScore` with the malformed team `"team3"`
issued by the host against `playingLobby`. -/
def badScoreLobby : Lobby := applyCmd playingLobby (Cmd.addScore "H" "team3")

/-- The lobby produced by `declareWinner` with the malformed team
`"team3"` issued by the host against `playingLobby`. -/
def badDeclareLobby : Lobby := applyCmd playingLobby (Cmd.declareWinner "H" "team3")

/-- The finished lobby obtained from `playingLobby` by the host declaring
team1 the winner. -/
def finishedLobby : Lobby := applyCmd playingLobby (Cmd.declareWinner "H" "team1")

/-- A concrete drafting-entry state used to witness the draft theorems:
capacity 6, roster of six, captains `A` and `B` just selected. -/
def draftEntryLobby : Lobby :=
  { hostId := "H"
    players := ["H", "A", "B", "C", "D", "E"]
    maxPlayers := 6
    phase := .drafting
    captains := ["A", "B"]
    team1 := ["A"]
    team2 := ["B"]
    currentTurn := some .team1
    picksLeft := 1
    score := [("team1", some 0), ("team2", some 0)]
    isPublic := false
    hasLobbyVC := false
    purgeTimers := 0
    processed := 0 }

/-- The lobby after captain `A` of `draftEntryLobby` picks `C`: the
allotment is exhausted, so the turn passes to team2 with a recomputed
allotment. -/
def draftAfterPick : Lobby := applyCmd draftEntryLobby (Cmd.draftPick "A" "C")

/-- A captain-select lobby with one captain chosen, one selection away
from entering drafting. -/
def oneCaptainLobby : Lobby :=
  { hostId := "H"
    players := ["H", "A", "B", "C"]
    maxPlayers := 4
    phase := .captainSelect
    captains := ["A"]
    team1 := ["A"]
    team2 := []
    currentTurn := none
    picksLeft := 0
    score := [("team1", some 0), ("team2", some 0)]
    isPublic := false
    hasLobbyVC := false
    purgeTimers := 0
    processed := 0 }

/-- The state after selecting the second captain of `oneCaptainLobby`. -/
def secondCaptainLobby : Lobby := applyCmd oneCaptainLobby (Cmd.selectCaptain "H" "B")

/-! # Theorems -/

/-! ## Rating engine lemmas -/

/-- The clamp `max 20 (min 30 _)` keeps every Elo change inside `[20, 30]`. -/
theorem eloChange_bounds (w l : ℝ) :
    20 ≤ calculateEloChange w l ∧ calculateEloChange w l ≤ 30 := by
  unfold calculateEloChange
  exact ⟨le_max_left _ _, max_le (by norm_num) (min_le_left _ _)⟩

/-- With equal team averages the logistic expectation is one half. -/
theorem expectedWinner_self (x : ℝ) : expectedWinner x x = 1 / 2 := by
  unfold expectedWinner
  have h0 : (x - x) / 400 = 0 := by ring
  rw [h0, Real.rpow_zero]
  norm_num

/-- C1.  For every team-average rating update over non-empty disjoint
teams of known players (whose stored ratings are non-negative, as the
store maintains): each winner's new rating is the old rating plus the
computed delta, hence no smaller; each loser's new rating is
`max 0 (old - (50 - delta))`, hence no larger than the old one and
non-negative; and the per-match gain and loss sum to the pool of 50
exactly. -/
theorem c1_match_result_bounds (winners losers : List Player)
    (hw : winners ≠ []) (hl : losers ≠ [])
    (hdisj : ∀ p ∈ winners, ∀ q ∈ losers, p.odiscordId ≠ q.odiscordId)
    (hnn : ∀ p ∈ losers, 0 ≤ p.elo) :
    (processMatchResult winners losers).eloGain +
      (processMatchResult winners losers).eloLoss = 50 ∧
    (∀ r ∈ (processMatchResult winners losers).winners,
      r.newElo = r.oldElo + (processMatchResult winners losers).eloGain ∧
      r.oldElo ≤ r.newElo) ∧
    (∀ r ∈ (processMatchResult winners losers).losers,
      r.newElo = max 0 (r.oldElo - (processMatchResult winners losers).eloLoss) ∧
      r.newElo ≤ r.oldElo ∧ 0 ≤ r.newElo) := by
  obtain ⟨h20, h30⟩ :=
    eloChange_bounds (calculateTeamAverageElo winners) (calculateTeamAverageElo losers)
  refine ⟨by simp [processMatchResult], ?_, ?_⟩
  · intro r hr
    simp only [processMatchResult, List.mem_map] at hr
    obtain ⟨p, hp, rfl⟩ := hr
    refine ⟨rfl, ?_⟩
    show p.elo ≤ p.elo +
      calculateEloChange (calculateTeamAverageElo winners) (calculateTeamAverageElo losers)
    omega
  · intro r hr
    simp only [processMatchResult, List.mem_map] at hr
    obtain ⟨p, hp, rfl⟩ := hr
    have hpe := hnn p hp
    refine ⟨rfl, ?_, ?_⟩
    · show max 0 (p.elo - (50 -
        calculateEloChange (calculateTeamAverageElo winners) (calculateTeamAverageElo losers)))
        ≤ p.elo
      exact max_le hpe (by omega)
    · show (0 : ℤ) ≤ max 0 (p.elo - (50 -
        calculateEloChange (calculateTeamAverageElo winners) (calculateTeamAverageElo losers)))
      exact le_max_left _ _

/-- Witness for C1: a concrete one-on-one update. -/
theorem c1_match_result_bounds_witness :
    (([⟨"w", 1000⟩] : List Player) ≠ [] ∧ ([⟨"l", 1000⟩] : List Player) ≠ [] ∧
      (∀ p ∈ ([⟨"w", 1000⟩] : List Player), ∀ q ∈ ([⟨"l", 1000⟩] : List Player),
        p.odiscordId ≠ q.odiscordId) ∧
      (∀ p ∈ ([⟨"l", 1000⟩] : List Player), 0 ≤ p.elo)) ∧
    ((processMatchResult [⟨"w", 1000⟩] [⟨"l", 1000⟩]).eloGain +
      (processMatchResult [⟨"w", 1000⟩] [⟨"l", 1000⟩]).eloLoss = 50 ∧
    (∀ r ∈ (processMatchResult [⟨"w", 1000⟩] [⟨"l", 1000⟩]).winners,
      r.newElo = r.oldElo + (processMatchResult [⟨"w", 1000⟩] [⟨"l", 1000⟩]).eloGain ∧
      r.oldElo ≤ r.newElo) ∧
    (∀ r ∈ (processMatchResult [⟨"w", 1000⟩] [⟨"l", 1000⟩]).losers,
      r.newElo = max 0 (r.oldElo - (processMatchResult [⟨"w", 1000⟩] [⟨"l", 1000⟩]).eloLoss) ∧
      r.newElo ≤ r.oldElo ∧ 0 ≤ r.newElo)) :=
  ⟨⟨by decide, by decide, by decide, by decide⟩,
    c1_match_result_bounds [⟨"w", 1000⟩] [⟨"l", 1000⟩]
      (by decide) (by decide) (by decide) (by decide)⟩

/-- C2.  For every pair of real-valued team averages the delta returned by
`calculateEloChange` lies in the clamp band `[20, 30]`, however extreme
the rating gap. -/
theorem c2_delta_clamped (winnerAvgElo loserAvgElo : ℝ) :
    20 ≤ calculateEloChange winnerAvgElo loserAvgElo ∧
    calculateEloChange winnerAvgElo loserAvgElo ≤ 30 :=
  eloChange_bounds winnerAvgElo loserAvgElo

/-- C3.  For equal team averages of 1000, the un-clamped change is
`round(50 * 1.0 / 1.5) = 33`, the clamp yields 30, and the loser loss is
`50 - 30 = 20`. -/
theorem c3_equal_averages :
    rawEloChange 1000 1000 = 33 ∧
    calculateEloChange 1000 1000 = 30 ∧
    50 - calculateEloChange 1000 1000 = 20 := by
  have hraw : rawEloChange 1000 1000 = 33 := by
    unfold rawEloChange
    rw [expectedWinner_self]
    have h1 : (BASE_ELO : ℝ) * (1 - 1 / 2 + 0.5) / 1.5 = 100 / 3 := by
      norm_num [BASE_ELO]
    rw [h1, round_eq]
    rw [show (100 : ℝ) / 3 + 1 / 2 = 203 / 6 by norm_num]
    rw [Int.floor_eq_iff]
    constructor <;> norm_num
  refine ⟨hraw, ?_, ?_⟩ <;> · unfold calculateEloChange; rw [hraw]; decide

/-! ## Rank lookup: totality and monotonicity -/

set_option maxHeartbeats 1000000 in
/-- C4.  Both rank lookups are total — every integer rating, including 0
and negatives, gets one of the table's names — and monotone in the
threshold order: a higher rating never gets a lower rank. -/
theorem c4_rank_total_monotone :
    (∀ e : ℤ, getRank e ∈ RANK_NAMES ∧ getRankV1 e ∈ RANK_NAMES_V1) ∧
    (∀ a b : ℤ, a ≤ b →
      rankIndex (getRank a) ≤ rankIndex (getRank b) ∧
      rankIndexV1 (getRankV1 a) ≤ rankIndexV1 (getRankV1 b)) := by
  constructor
  · intro e
    constructor
    · unfold getRank RANK_NAMES
      split_ifs <;> decide
    · unfold getRankV1 RANK_NAMES_V1
      split_ifs <;> decide
  · intro a b hab
    have h1 : ∀ e : ℤ, rankIndex (getRank e) = getRankIdx e := by
      intro e
      unfold getRank getRankIdx
      split_ifs <;> decide
    have h2 : ∀ e : ℤ, rankIndexV1 (getRankV1 e) = getRankIdxV1 e := by
      intro e
      unfold getRankV1 getRankIdxV1
      split_ifs <;> decide
    rw [h1, h1, h2, h2]
    constructor
    · unfold getRankIdx
      split_ifs <;> omega
    · unfold getRankIdxV1
      split_ifs <;> omega

/-- Witness for C4 at ratings 0 and 1500. -/
theorem c4_rank_total_monotone_witness :
    (0 : ℤ) ≤ 1500 ∧
    (rankIndex (getRank 0) ≤ rankIndex (getRank 1500) ∧
      rankIndexV1 (getRankV1 0) ≤ rankIndexV1 (getRankV1 1500)) ∧
    (getRank 0 ∈ RANK_NAMES ∧ getRankV1 0 ∈ RANK_NAMES_V1) :=
  ⟨by decide, c4_rank_total_monotone.2 0 1500 (by decide),
    c4_rank_total_monotone.1 0⟩

/-! ## Purge lemmas -/

/-- A `getD` access inside the list bounds yields a member. -/
theorem getD_mem_of_lt (l : List String) (i : ℕ) (d : String) (h : i < l.length) :
    l.getD i d ∈ l := by
  rw [List.getD_eq_getElem l d h]
  exact List.getElem_mem h

/-- In a duplicate-free list, the element at `i` does not survive
`eraseIdx i`. -/
theorem getElem_not_mem_eraseIdx (l : List String) (i : ℕ) (h : i < l.length)
    (hn : l.Nodup) : l[i] ∉ l.eraseIdx i := by
  intro hmem
  rw [List.mem_eraseIdx_iff_getElem] at hmem
  obtain ⟨j, hj, hne, he⟩ := hmem
  exact hne (hn.getElem_inj_iff.mp he)

/-- Filtering one present element out of a duplicate-free list shortens it
by exactly one. -/
theorem filter_ne_length (l : List String) (a : String) (h : a ∈ l)
    (hn : l.Nodup) : (l.filter fun q => q ≠ a).length + 1 = l.length := by
  induction l with
  | nil => cases h
  | cons b t ih =>
    rw [List.nodup_cons] at hn
    by_cases hba : b = a
    · subst hba
      have hfit : t.filter (fun q => q ≠ b) = t :=
        List.filter_eq_self.mpr fun x hx =>
          decide_eq_true (fun he => hn.1 (he ▸ hx))
      rw [List.filter_cons, if_neg (by simp), hfit]
      simp
    · have hat : a ∈ t := by
        rcases List.mem_cons.mp h with h1 | h2
        · exact absurd h1.symm hba
        · exact h2
      have := ih hat hn.2
      simp only [List.filter_cons]
      rw [if_pos (by exact decide_eq_true hba)]
      simp only [List.length_cons]
      omega

/-- Every player eliminated by the purge loop comes from the eliminatable
pool. -/
theorem purgeLoop_fst_subset (rand : ℕ → ℕ) :
    ∀ (n i : ℕ) (pool players : List String),
      ∀ x ∈ (purgeLoop rand n i pool players).1, x ∈ pool := by
  intro n
  induction n with
  | zero =>
    intro i pool players x hx
    simp [purgeLoop] at hx
  | succ n ih =>
    intro i pool players x hx
    rw [purgeLoop] at hx
    by_cases hp : pool.length = 0
    · simp [hp] at hx
    · simp only [if_neg hp] at hx
      rcases List.mem_cons.mp hx with h1 | h2
      · subst h1
        exact getD_mem_of_lt _ _ _ (Nat.mod_lt _ (Nat.pos_of_ne_zero hp))
      · exact List.eraseIdx_subset _ _ (ih _ _ _ x h2)

/-- The purge loop eliminates `min fuel pool.length` players. -/
theorem purgeLoop_fst_length (rand : ℕ → ℕ) :
    ∀ (n i : ℕ) (pool players : List String),
      (purgeLoop rand n i pool players).1.length = min n pool.length := by
  intro n
  induction n with
  | zero =>
    intro i pool players
    simp [purgeLoop]
  | succ n ih =>
    intro i pool players
    rw [purgeLoop]
    by_cases hp : pool.length = 0
    · simp [hp]
    · simp only [if_neg hp, List.length_cons, ih]
      have hlt : rand i % pool.length < pool.length :=
        Nat.mod_lt _ (Nat.pos_of_ne_zero hp)
      rw [List.length_eraseIdx_of_lt hlt]
      omega

/-- Roster size accounting for the purge loop: starting from a
duplicate-free roster containing the duplicate-free pool, each elimination
removes exactly one roster member. -/
theorem purgeLoop_snd_length (rand : ℕ → ℕ) :
    ∀ (n i : ℕ) (pool players : List String), pool.Nodup → players.Nodup →
      (∀ x ∈ pool, x ∈ players) →
      (purgeLoop rand n i pool players).2.length +
        (purgeLoop rand n i pool players).1.length = players.length := by
  intro n
  induction n with
  | zero =>
    intro i pool players _ _ _
    simp [purgeLoop]
  | succ n ih =>
    intro i pool players hpn hln hsub
    rw [purgeLoop]
    by_cases hp : pool.length = 0
    · simp [hp]
    · simp only [if_neg hp, List.length_cons]
      have hlt : rand i % pool.length < pool.length :=
        Nat.mod_lt _ (Nat.pos_of_ne_zero hp)
      have hgd : pool.getD (rand i % pool.length) "" = pool[rand i % pool.length] :=
        List.getD_eq_getElem pool "" hlt
      have hpmem : pool.getD (rand i % pool.length) "" ∈ players :=
        hsub _ (getD_mem_of_lt _ _ _ hlt)
      have hrec := ih (i + 1) (pool.eraseIdx (rand i % pool.length))
        (players.filter fun q => q ≠ pool.getD (rand i % pool.length) "")
        (hpn.eraseIdx _)
        (hln.filter _)
        (by
          intro x hx
          have hxp : x ∈ pool := List.eraseIdx_subset _ _ hx
          have hxne : x ≠ pool.getD (rand i % pool.length) "" := by
            intro he
            rw [hgd] at he
            exact getElem_not_mem_eraseIdx pool _ hlt hpn (he ▸ hx)
          simp only [List.mem_filter]
          exact ⟨hsub x hxp, decide_eq_true hxne⟩)
      have hflt := filter_ne_length players (pool.getD (rand i % pool.length) "") hpmem hln
      omega

/-- C6.  A purge run over an over-capacity roster of distinct players that
includes the host: the host is never eliminated; exactly
`min excess eliminatableCount` players are eliminated, so when enough
eliminable (non-host, non-immune) players exist the roster shrinks to
exactly the capacity, and otherwise every eliminable player is removed;
the run always hands the lobby to captain-select (no deadlock); and the
sessions cleared are exactly the eliminated players. -/
theorem c6_purge (players : List String) (hostId : String) (maxPlayers : ℕ)
    (purgeImmunity : List String) (dailyImmune : String → Bool) (rand : ℕ → ℕ)
    (hnd : players.Nodup) (hhost : hostId ∈ players)
    (hover : maxPlayers < players.length) :
    hostId ∉ (runPurge players hostId maxPlayers purgeImmunity dailyImmune rand).eliminated ∧
    (runPurge players hostId maxPlayers purgeImmunity dailyImmune rand).eliminated.length =
      min (players.length - maxPlayers)
        (purgePool players hostId purgeImmunity dailyImmune).length ∧
    (runPurge players hostId maxPlayers purgeImmunity dailyImmune rand).newPlayers.length +
      (runPurge players hostId maxPlayers purgeImmunity dailyImmune rand).eliminated.length =
      players.length ∧
    (players.length - maxPlayers ≤ (purgePool players hostId purgeImmunity dailyImmune).length →
      (runPurge players hostId maxPlayers purgeImmunity dailyImmune rand).newPlayers.length =
        maxPlayers) ∧
    (runPurge players hostId maxPlayers purgeImmunity dailyImmune rand).sessionsCleared =
      (runPurge players hostId maxPlayers purgeImmunity dailyImmune rand).eliminated ∧
    (runPurge players hostId maxPlayers purgeImmunity dailyImmune rand).phaseAfter =
      "captain-select" := by
  have hpoolsub : ∀ x ∈ purgePool players hostId purgeImmunity dailyImmune, x ∈ players := by
    intro x hx
    exact List.mem_of_mem_filter hx
  have hpoolnd : (purgePool players hostId purgeImmunity dailyImmune).Nodup :=
    hnd.filter _
  have hhostpool : hostId ∉ purgePool players hostId purgeImmunity dailyImmune := by
    intro hx
    have := List.of_mem_filter hx
    simp at this
  have hfst := purgeLoop_fst_length rand (players.length - maxPlayers) 0
    (purgePool players hostId purgeImmunity dailyImmune) players
  have hsnd := purgeLoop_snd_length rand (players.length - maxPlayers) 0
    (purgePool players hostId purgeImmunity dailyImmune) players
    hpoolnd hnd hpoolsub
  refine ⟨?_, ?_, ?_, ?_, rfl, rfl⟩
  · intro hmem
    exact hhostpool (purgeLoop_fst_subset rand _ _ _ _ _ hmem)
  · exact hfst
  · exact hsnd
  · intro hle
    have hnew : (runPurge players hostId maxPlayers purgeImmunity dailyImmune
        rand).newPlayers.length =
        (purgeLoop rand (players.length - maxPlayers) 0
          (purgePool players hostId purgeImmunity dailyImmune) players).2.length := rfl
    have helim : (runPurge players hostId maxPlayers purgeImmunity dailyImmune
        rand).eliminated.length =
        (purgeLoop rand (players.length - maxPlayers) 0
          (purgePool players hostId purgeImmunity dailyImmune) players).1.length := rfl
    have : min (players.length - maxPlayers)
        (purgePool players hostId purgeImmunity dailyImmune).length =
        players.length - maxPlayers := min_eq_left hle
    omega

/-- Witness for C6: seven distinct players, capacity six, no immunities —
exactly one non-host player is eliminated and six remain. -/
theorem c6_purge_witness :
    ((["H", "A", "B", "C", "D", "E", "F"] : List String).Nodup ∧
      "H" ∈ (["H", "A", "B", "C", "D", "E", "F"] : List String) ∧
      6 < (["H", "A", "B", "C", "D", "E", "F"] : List String).length) ∧
    ("H" ∉ (runPurge ["H", "A", "B", "C", "D", "E", "F"] "H" 6 [] (fun _ => false)
        (fun _ => 0)).eliminated ∧
      (runPurge ["H", "A", "B", "C", "D", "E", "F"] "H" 6 [] (fun _ => false)
        (fun _ => 0)).eliminated.length =
        min ((["H", "A", "B", "C", "D", "E", "F"] : List String).length - 6)
          (purgePool ["H", "A", "B", "C", "D", "E", "F"] "H" [] (fun _ => false)).length ∧
      (runPurge ["H", "A", "B", "C", "D", "E", "F"] "H" 6 [] (fun _ => false)
        (fun _ => 0)).newPlayers.length +
        (runPurge ["H", "A", "B", "C", "D", "E", "F"] "H" 6 [] (fun _ => false)
          (fun _ => 0)).eliminated.length =
        (["H", "A", "B", "C", "D", "E", "F"] : List String).length ∧
      ((["H", "A", "B", "C", "D", "E", "F"] : List String).length - 6 ≤
          (purgePool ["H", "A", "B", "C", "D", "E", "F"] "H" [] (fun _ => false)).length →
        (runPurge ["H", "A", "B", "C", "D", "E", "F"] "H" 6 [] (fun _ => false)
          (fun _ => 0)).newPlayers.length = 6) ∧
      (runPurge ["H", "A", "B", "C", "D", "E", "F"] "H" 6 [] (fun _ => false)
        (fun _ => 0)).sessionsCleared =
        (runPurge ["H", "A", "B", "C", "D", "E", "F"] "H" 6 [] (fun _ => false)
          (fun _ => 0)).eliminated ∧
      (runPurge ["H", "A", "B", "C", "D", "E", "F"] "H" 6 [] (fun _ => false)
        (fun _ => 0)).phaseAfter = "captain-select") :=
  ⟨⟨by decide, by decide, by decide⟩,
    c6_purge ["H", "A", "B", "C", "D", "E", "F"] "H" 6 [] (fun _ => false)
      (fun _ => 0) (by decide) (by decide) (by decide)⟩

/-! ## Lobby state machine lemmas -/

/-- A command whose handler returns a lobby yields a reachable state. -/
theorem reachable_applyCmd (l : Lobby) (c : Cmd) (h : Reachable l)
    (hs : (step l c).1 ≠ none) : Reachable (applyCmd l c) := by
  rcases he : (step l c).1 with _ | l2
  · exact absurd he hs
  · have hstep : step l c = (some l2, (step l c).2) := by
      rw [← he]
    have happ : applyCmd l c = l2 := by
      simp [applyCmd, he]
    rw [happ]
    exact Reachable.next l c l2 _ h hstep

/-- C9 evaluation.  Because `startCaptainSelect` has no phase guard, the
host can re-enter captain-select from drafting and select a third captain:
the trace reaches a lobby with three captains, the third of which belongs
to neither team. -/
theorem c9_third_captain_reachable :
    Reachable thirdCaptainLobby ∧
    thirdCaptainLobby.captains.length = 3 ∧
    "C" ∈ thirdCaptainLobby.captains ∧
    "C" ∉ thirdCaptainLobby.team1 ∧
    "C" ∉ thirdCaptainLobby.team2 := by
  constructor
  · have h0 : Reachable (initLobby "H" 4 false false) := Reachable.init "H" 4 false false
    have h1 := reachable_applyCmd _ (Cmd.join "A") h0 (by decide)
    have h2 := reachable_applyCmd _ (Cmd.join "B") h1 (by decide)
    have h3 := reachable_applyCmd _ (Cmd.join "C") h2 (by decide)
    have h4 := reachable_applyCmd _ (Cmd.startCaptainSelect "H" true) h3 (by decide)
    have h5 := reachable_applyCmd _ (Cmd.selectCaptain "H" "A") h4 (by decide)
    have h6 := reachable_applyCmd _ (Cmd.selectCaptain "H" "B") h5 (by decide)
    have h7 := reachable_applyCmd _ (Cmd.startCaptainSelect "H" true) h6 (by decide)
    have h8 := reachable_applyCmd _ (Cmd.selectCaptain "H" "C") h7 (by decide)
    exact h8
  · exact ⟨by decide, by decide, by decide, by decide⟩

/-- C10 evaluation.  After re-entering captain-select from drafting the
host can un-select the first captain (emptying team1) and pick a new
second captain, re-entering drafting with team1 empty; the draft-pick
handler then dereferences `teams.team1[0]` of an empty team and throws. -/
theorem c10_empty_team_drafting :
    Reachable emptyTeamLobby ∧
    emptyTeamLobby.phase = Phase.drafting ∧
    emptyTeamLobby.team1 = [] ∧
    (step emptyTeamLobby (Cmd.draftPick "B" "A")).2 = Outcome.crashed := by
  refine ⟨?_, by decide, by decide, by decide⟩
  have h0 : Reachable (initLobby "H" 4 false false) := Reachable.init "H" 4 false false
  have h1 := reachable_applyCmd _ (Cmd.join "A") h0 (by decide)
  have h2 := reachable_applyCmd _ (Cmd.join "B") h1 (by decide)
  have h3 := reachable_applyCmd _ (Cmd.join "C") h2 (by decide)
  have h4 := reachable_applyCmd _ (Cmd.startCaptainSelect "H" true) h3 (by decide)
  have h5 := reachable_applyCmd _ (Cmd.selectCaptain "H" "A") h4 (by decide)
  have h6 := reachable_applyCmd _ (Cmd.selectCaptain "H" "B") h5 (by decide)
  have h7 := reachable_applyCmd _ (Cmd.startCaptainSelect "H" true) h6 (by decide)
  have h8 := reachable_applyCmd _ (Cmd.removeCaptain "H" "A") h7 (by decide)
  have h9 := reachable_applyCmd _ (Cmd.selectCaptain "H" "C") h8 (by decide)
  exact h9

/-- C8 evaluation.  Against a reachable playing lobby, `addScore` with the
malformed team `"team3"` is not rejected: it mutates the score object
(creating a `NaN`-valued `team3` slot), and `declareWinner` with the same
malformed team finishes the match and runs the rating update. -/
theorem c8_unvalidated_team_mutates :
    Reachable playingLobby ∧
    playingLobby.phase = Phase.playing ∧
    (step playingLobby (Cmd.addScore "H" "team3")).2 = Outcome.applied ∧
    badScoreLobby ≠ playingLobby ∧
    jsGet badScoreLobby.score "team3" = some none ∧
    (step playingLobby (Cmd.declareWinner "H" "team3")).2 = Outcome.applied ∧
    badDeclareLobby.phase = Phase.finished ∧
    badDeclareLobby.processed = playingLobby.processed + 1 := by
  refine ⟨?_, by decide, by decide, by decide, by decide, by decide, by decide, by decide⟩
  have h0 : Reachable (initLobby "H" 4 false false) := Reachable.init "H" 4 false false
  have h1 := reachable_applyCmd _ (Cmd.join "A") h0 (by decide)
  have h2 := reachable_applyCmd _ (Cmd.join "B") h1 (by decide)
  have h3 := reachable_applyCmd _ (Cmd.join "C") h2 (by decide)
  have h4 := reachable_applyCmd _ (Cmd.startCaptainSelect "H" true) h3 (by decide)
  have h5 := reachable_applyCmd _ (Cmd.selectCaptain "H" "A") h4 (by decide)
  have h6 := reachable_applyCmd _ (Cmd.selectCaptain "H" "B") h5 (by decide)
  have h7 := reachable_applyCmd _ (Cmd.draftPick "A" "C") h6 (by decide)
  have h8 := reachable_applyCmd _ (Cmd.draftPick "B" "H") h7 (by decide)
  exact h8

/-- The draft mutation never touches the processing counter. -/
theorem draftApply_processed (s : Side) (uid : String) (l l2 : Lobby) (o : Outcome)
    (h : draftApply s uid l = (some l2, o)) : l2.processed = l.processed := by
  cases s <;>
    · simp only [draftApply, startPlaying] at h
      split_ifs at h <;>
        · simp only [Prod.mk.injEq, Option.some.injEq] at h
          obtain ⟨h1, _⟩ := h
          subst h1
          simp

/-- The whole draft-pick handler never touches the processing counter. -/
theorem draftPickStep_processed (issuer uid : String) (l l2 : Lobby) (o : Outcome)
    (h : draftPickStep issuer uid l = (some l2, o)) : l2.processed = l.processed := by
  rw [draftPickStep] at h
  split at h
  · simp only [Prod.mk.injEq, Option.some.injEq] at h
    obtain ⟨h1, _⟩ := h
    subst h1
    rfl
  · split at h
    · simp only [Prod.mk.injEq, Option.some.injEq] at h
      obtain ⟨h1, _⟩ := h
      subst h1
      rfl
    · split at h
      · simp only [Prod.mk.injEq, Option.some.injEq] at h
        obtain ⟨h1, _⟩ := h
        subst h1
        rfl
      · split at h
        · simp only [Prod.mk.injEq, Option.some.injEq] at h
          obtain ⟨h1, _⟩ := h
          subst h1
          rfl
        · split at h
          · simp only [Prod.mk.injEq, Option.some.injEq] at h
            obtain ⟨h1, _⟩ := h
            subst h1
            rfl
          · split at h
            · simp only [Prod.mk.injEq, Option.some.injEq] at h
              obtain ⟨h1, _⟩ := h
              subst h1
              rfl
            · rename_i s hs
              exact draftApply_processed s uid l l2 o h

/-- C7.  Once a lobby is finished, every add-score and declare-winner
command against it is rejected by the playing-phase guard with the state
unchanged; and the only step that ever increments the
`db.processMatchResult` invocation count is the playing-to-finished
transition, which increments it by exactly one — so the rating update and
match-record write run exactly once per match. -/
theorem c7_finished_guard :
    (∀ (l : Lobby) (issuer team : String), l.phase = Phase.finished →
      step l (Cmd.addScore issuer team) = (some l, Outcome.rejected) ∧
      step l (Cmd.declareWinner issuer team) = (some l, Outcome.rejected)) ∧
    (∀ (l : Lobby) (c : Cmd) (l2 : Lobby) (o : Outcome),
      step l c = (some l2, o) → l.processed < l2.processed →
      l.phase = Phase.playing ∧ l2.phase = Phase.finished ∧
      l2.processed = l.processed + 1) := by
  constructor
  · intro l issuer team hph
    constructor
    · simp [step, addScoreStep, hph]
    · simp [step, declareWinnerStep, hph]
  · intro l c l2 o h hlt
    cases c with
    | join uid =>
      simp only [step, joinStep] at h
      split_ifs at h <;>
        · simp only [Prod.mk.injEq, Option.some.injEq] at h
          obtain ⟨h1, _⟩ := h
          subst h1
          simp at hlt
    | leave uid =>
      simp only [step, leaveStep] at h
      split_ifs at h <;>
        first
        | · simp only [Prod.mk.injEq, Option.some.injEq] at h
            obtain ⟨h1, _⟩ := h
            subst h1
            simp at hlt
        | simp at h
    | kick issuer uid =>
      simp only [step, kickStep] at h
      split_ifs at h <;>
        · simp only [Prod.mk.injEq, Option.some.injEq] at h
          obtain ⟨h1, _⟩ := h
          subst h1
          simp at hlt
    | startCaptainSelect issuer allInVC =>
      simp only [step, startCaptainSelectStep] at h
      split_ifs at h <;>
        · simp only [Prod.mk.injEq, Option.some.injEq] at h
          obtain ⟨h1, _⟩ := h
          subst h1
          simp at hlt
    | purgeFire rand =>
      simp only [step, purgeFireStep] at h
      split_ifs at h <;>
        · simp only [Prod.mk.injEq, Option.some.injEq] at h
          obtain ⟨h1, _⟩ := h
          subst h1
          simp at hlt
    | selectCaptain issuer uid =>
      simp only [step, selectCaptainStep] at h
      split_ifs at h <;>
        · simp only [Prod.mk.injEq, Option.some.injEq] at h
          obtain ⟨h1, _⟩ := h
          subst h1
          simp at hlt
    | removeCaptain issuer uid =>
      simp only [step, removeCaptainStep] at h
      split_ifs at h <;>
        · simp only [Prod.mk.injEq, Option.some.injEq] at h
          obtain ⟨h1, _⟩ := h
          subst h1
          simp at hlt
    | draftPick issuer uid =>
      have hpp : l2.processed = l.processed := draftPickStep_processed issuer uid l l2 o h
      omega
    | addScore issuer team =>
      simp only [step, addScoreStep] at h
      split_ifs at h with h1 h2 h3
      · simp only [Prod.mk.injEq, Option.some.injEq] at h
        obtain ⟨hX, _⟩ := h
        subst hX
        simp at hlt
      · simp only [Prod.mk.injEq, Option.some.injEq] at h
        obtain ⟨hX, _⟩ := h
        subst hX
        simp at hlt
      · simp only [Prod.mk.injEq, Option.some.injEq] at h
        obtain ⟨hX, _⟩ := h
        subst hX
        exact ⟨not_not.mp h1, by simp [finishMatchStep], by simp [finishMatchStep]⟩
      · simp only [Prod.mk.injEq, Option.some.injEq] at h
        obtain ⟨hX, _⟩ := h
        subst hX
        simp at hlt
    | declareWinner issuer team =>
      simp only [step, declareWinnerStep] at h
      split_ifs at h with h1 h2 h3
      · simp only [Prod.mk.injEq, Option.some.injEq] at h
        obtain ⟨hX, _⟩ := h
        subst hX
        simp at hlt
      · simp only [Prod.mk.injEq, Option.some.injEq] at h
        obtain ⟨hX, _⟩ := h
        subst hX
        simp at hlt
      · simp only [Prod.mk.injEq, Option.some.injEq] at h
        obtain ⟨hX, _⟩ := h
        subst hX
        exact ⟨not_not.mp h1, by simp [finishMatchStep], by simp [finishMatchStep]⟩
      · simp only [Prod.mk.injEq, Option.some.injEq] at h
        obtain ⟨hX, _⟩ := h
        subst hX
        exact ⟨not_not.mp h1, by simp [finishMatchStep], by simp [finishMatchStep]⟩
    | resetLobby issuer =>
      simp only [step, resetLobbyStep] at h
      split_ifs at h <;>
        · simp only [Prod.mk.injEq, Option.some.injEq] at h
          obtain ⟨h1, _⟩ := h
          subst h1
          simp at hlt
    | closeLobby issuer =>
      simp only [step, closeLobbyStep] at h
      split_ifs at h <;>
        first
        | · simp only [Prod.mk.injEq, Option.some.injEq] at h
            obtain ⟨h1, _⟩ := h
            subst h1
            simp at hlt
        | simp at h

/-- Witness for C7: the finished lobby of the clean run rejects further
score commands, and the playing-to-finished step that produced it
incremented the processing count from 0 to 1. -/
theorem c7_finished_guard_witness :
    (finishedLobby.phase = Phase.finished ∧
      step finishedLobby (Cmd.addScore "H" "team1") = (some finishedLobby, Outcome.rejected) ∧
      step finishedLobby (Cmd.declareWinner "H" "team2") =
        (some finishedLobby, Outcome.rejected)) ∧
    (step playingLobby (Cmd.declareWinner "H" "team1") =
        (some finishedLobby, Outcome.applied) ∧
      playingLobby.processed < finishedLobby.processed ∧
      (playingLobby.phase = Phase.playing ∧ finishedLobby.phase = Phase.finished ∧
        finishedLobby.processed = playingLobby.processed + 1)) :=
  ⟨⟨by decide,
    (c7_finished_guard.1 finishedLobby "H" "team1" (by decide)).1,
    (c7_finished_guard.1 finishedLobby "H" "team2" (by decide)).2⟩,
   ⟨by decide, by decide,
    c7_finished_guard.2 playingLobby (Cmd.declareWinner "H" "team1") finishedLobby
      Outcome.applied (by decide) (by decide)⟩⟩

/-! ## Draft invariant lemmas -/

/-- Inserting a fresh element in the middle keeps a list duplicate-free. -/
theorem nodup_insert_middle (xs ys : List String) (u : String)
    (h : (xs ++ ys).Nodup) (hu : u ∉ xs) (hv : u ∉ ys) :
    (xs ++ u :: ys).Nodup := by
  rw [(List.perm_middle).nodup_iff]
  exact List.nodup_cons.mpr ⟨by simp [hu, hv], h⟩

/-- Appending a fresh element keeps a list duplicate-free. -/
theorem nodup_append_snoc (xs : List String) (u : String)
    (h : xs.Nodup) (hu : u ∉ xs) : (xs ++ [u]).Nodup := by
  have h2 := nodup_insert_middle xs [] u (by simpa using h) hu (by simp)
  simpa using h2

/-- An even capacity of at least 4 has `maxPlayers / 2` at least 2 and
exactly half the capacity. -/
theorem halfZ_facts (l : Lobby) (h4 : 4 ≤ l.maxPlayers) (hdvd : 2 ∣ l.maxPlayers) :
    (l.maxPlayers : ℤ) = 2 * halfZ l ∧ 2 ≤ halfZ l := by
  obtain ⟨k, hk⟩ := hdvd
  have hz : halfZ l = (k : ℤ) := by
    unfold halfZ
    rw [hk]
    push_cast
    rw [Int.mul_ediv_cancel_left _ (by norm_num)]
  constructor
  · rw [hz, hk]; push_cast; ring
  · rw [hz]; omega

/-- The drafting-entry state satisfies the draft invariant. -/
theorem draftEntry_draftInv (l : Lobby) (h : DraftEntry l) : DraftInv l := by
  obtain ⟨hph, hturn, hpl, ⟨c1, c2, hcap, ht1, ht2⟩, hsub, hnp, hnt, hplen, h4, hdvd⟩ := h
  obtain ⟨hmax, hhalf⟩ := halfZ_facts l h4 hdvd
  refine ⟨h4, hdvd, hnp, hnt, hsub, ?_, ?_, ?_, ?_⟩
  · rw [ht1]; simp; omega
  · rw [ht2]; simp; omega
  · unfold totalPicked
    rw [ht1, ht2]
    simp
    omega
  · intro _
    refine ⟨Side.team1, hturn, by rw [hpl], ?_, ?_, ?_⟩
    · unfold unpickedZ totalPicked
      rw [hpl, ht1, ht2]
      simp
      omega
    · show ((teamOf l Side.team1).length : ℤ) + l.picksLeft ≤ halfZ l
      unfold teamOf
      rw [ht1, hpl]
      simp
      omega
    · unfold totalPicked
      rw [ht1, ht2]
      simp
      omega

/-- The mutating tail of a validated draft pick preserves the draft
invariant. -/
theorem draftApply_inv (l : Lobby) (s : Side) (uid : String)
    (hinv : DraftInv l) (hph : l.phase = Phase.drafting)
    (hturn : l.currentTurn = some s)
    (hu : uid ∈ l.players)
    (hnc : ¬(uid ∈ l.captains ∨ uid ∈ l.team1 ∨ uid ∈ l.team2)) :
    ∀ l2 o, draftApply s uid l = (some l2, o) → DraftInv l2 := by
  intro l2 o heq
  obtain ⟨h4, hdvd, hnp, hnod, hsub, hb1, hb2, htot, hdr⟩ := hinv
  obtain ⟨s2, hs2, hpl1, hple, hroom, hlt⟩ := hdr hph
  have hss : s2 = s := by
    rw [hturn] at hs2
    exact (Option.some.inj hs2).symm
  subst hss
  have hdz : (2 : ℤ) ∣ (l.maxPlayers : ℤ) := by exact_mod_cast hdvd
  have h4z : (4 : ℤ) ≤ (l.maxPlayers : ℤ) := by exact_mod_cast h4
  have hu1 : uid ∉ l.team1 := fun hx => hnc (Or.inr (Or.inl hx))
  have hu2 : uid ∉ l.team2 := fun hx => hnc (Or.inr (Or.inr hx))
  cases s2 with
  | team1 =>
    have hnod2 : ((l.team1 ++ [uid]) ++ l.team2).Nodup := by
      rw [List.append_assoc]
      exact nodup_insert_middle l.team1 l.team2 uid hnod hu1 hu2
    have hsub2 : ∀ x ∈ (l.team1 ++ [uid]) ++ l.team2, x ∈ l.players := by
      intro x hx
      simp only [List.append_assoc, List.cons_append, List.nil_append,
        List.mem_append, List.mem_cons] at hx
      rcases hx with hx | rfl | hx
      · exact hsub x (by simp [hx])
      · exact hu
      · exact hsub x (by simp [hx])
    simp only [unpickedZ, totalPicked, halfZ, teamOf] at hple hroom hlt htot hb1 hb2
    push_cast at hple hroom hlt htot hb1 hb2
    simp only [draftApply] at heq
    split at heq
    · rename_i hcap
      simp only [Prod.mk.injEq, Option.some.injEq] at heq
      obtain ⟨h1, _⟩ := heq
      subst h1
      simp only [totalPicked, List.length_append, List.length_cons, List.length_nil] at hcap
      push_cast at hcap
      refine ⟨h4, hdvd, hnp, hnod2, hsub2, ?_, ?_, ?_,
        fun habs => absurd habs (by simp [startPlaying])⟩ <;>
        · simp only [startPlaying, halfZ, totalPicked, unpickedZ, teamOf,
            List.length_append, List.length_cons, List.length_nil]
          push_cast
          omega
    · rename_i hcap
      simp only [totalPicked, List.length_append, List.length_cons, List.length_nil] at hcap
      push_cast at hcap
      split at heq
      · rename_i hzero
        split at heq
        · rename_i hmin
          simp only [Prod.mk.injEq, Option.some.injEq] at heq
          obtain ⟨h1, _⟩ := heq
          subst h1
          refine ⟨h4, hdvd, hnp, hnod2, hsub2, ?_, ?_, ?_,
            fun habs => absurd habs (by simp [startPlaying])⟩ <;>
            · simp only [startPlaying, halfZ, totalPicked, unpickedZ, teamOf,
                List.length_append, List.length_cons, List.length_nil]
              push_cast
              omega
        · rename_i hmin
          simp only [totalPicked, halfZ, List.length_append, List.length_cons, List.length_nil] at hmin
          push_cast at hmin
          simp only [Prod.mk.injEq, Option.some.injEq] at heq
          obtain ⟨h1, _⟩ := heq
          subst h1
          refine ⟨h4, hdvd, hnp, hnod2, hsub2, ?_, ?_, ?_, fun _ =>
            ⟨Side.team2, rfl, ?_, ?_, ?_, ?_⟩⟩ <;>
            · simp only [Side.other, halfZ, totalPicked, unpickedZ, teamOf,
                List.length_append, List.length_cons, List.length_nil] at hmin ⊢
              push_cast
              omega
      · rename_i hzero
        simp only [Prod.mk.injEq, Option.some.injEq] at heq
        obtain ⟨h1, _⟩ := heq
        subst h1
        refine ⟨h4, hdvd, hnp, hnod2, hsub2, ?_, ?_, ?_, fun _ =>
          ⟨Side.team1, hturn, ?_, ?_, ?_, ?_⟩⟩ <;>
          · simp only [halfZ, totalPicked, unpickedZ, teamOf,
              List.length_append, List.length_cons, List.length_nil]
            push_cast
            omega
  | team2 =>
    have hnod2 : (l.team1 ++ (l.team2 ++ [uid])).Nodup := by
      rw [← List.append_assoc]
      exact nodup_append_snoc (l.team1 ++ l.team2) uid hnod (by simp [hu1, hu2])
    have hsub2 : ∀ x ∈ l.team1 ++ (l.team2 ++ [uid]), x ∈ l.players := by
      intro x hx
      simp only [List.mem_append, List.mem_singleton] at hx
      rcases hx with hx | hx | rfl
      · exact hsub x (by simp [hx])
      · exact hsub x (by simp [hx])
      · exact hu
    simp only [unpickedZ, totalPicked, halfZ, teamOf] at hple hroom hlt htot hb1 hb2
    push_cast at hple hroom hlt htot hb1 hb2
    simp only [draftApply] at heq
    split at heq
    · rename_i hcap
      simp only [Prod.mk.injEq, Option.some.injEq] at heq
      obtain ⟨h1, _⟩ := heq
      subst h1
      simp only [totalPicked, List.length_append, List.length_cons, List.length_nil] at hcap
      push_cast at hcap
      refine ⟨h4, hdvd, hnp, hnod2, hsub2, ?_, ?_, ?_,
        fun habs => absurd habs (by simp [startPlaying])⟩ <;>
        · simp only [startPlaying, halfZ, totalPicked, unpickedZ, teamOf,
            List.length_append, List.length_cons, List.length_nil]
          push_cast
          omega
    · rename_i hcap
      simp only [totalPicked, List.length_append, List.length_cons, List.length_nil] at hcap
      push_cast at hcap
      split at heq
      · rename_i hzero
        split at heq
        · rename_i hmin
          simp only [Prod.mk.injEq, Option.some.injEq] at heq
          obtain ⟨h1, _⟩ := heq
          subst h1
          refine ⟨h4, hdvd, hnp, hnod2, hsub2, ?_, ?_, ?_,
            fun habs => absurd habs (by simp [startPlaying])⟩ <;>
            · simp only [startPlaying, halfZ, totalPicked, unpickedZ, teamOf,
                List.length_append, List.length_cons, List.length_nil]
              push_cast
              omega
        · rename_i hmin
          simp only [totalPicked, halfZ, List.length_append, List.length_cons, List.length_nil] at hmin
          push_cast at hmin
          simp only [Prod.mk.injEq, Option.some.injEq] at heq
          obtain ⟨h1, _⟩ := heq
          subst h1
          refine ⟨h4, hdvd, hnp, hnod2, hsub2, ?_, ?_, ?_, fun _ =>
            ⟨Side.team1, rfl, ?_, ?_, ?_, ?_⟩⟩ <;>
            · simp only [Side.other, halfZ, totalPicked, unpickedZ, teamOf,
                List.length_append, List.length_cons, List.length_nil] at hmin ⊢
              push_cast
              omega
      · rename_i hzero
        simp only [Prod.mk.injEq, Option.some.injEq] at heq
        obtain ⟨h1, _⟩ := heq
        subst h1
        refine ⟨h4, hdvd, hnp, hnod2, hsub2, ?_, ?_, ?_, fun _ =>
          ⟨Side.team2, hturn, ?_, ?_, ?_, ?_⟩⟩ <;>
          · simp only [halfZ, totalPicked, unpickedZ, teamOf,
              List.length_append, List.length_cons, List.length_nil]
            push_cast
            omega


/-- The draft-pick handler preserves the draft invariant: rejections and
crashes leave the state unchanged, and an applied pick goes through
`draftApply`. -/
theorem draftPickStep_inv (issuer uid : String) (l : Lobby) (hinv : DraftInv l)
    (l2 : Lobby) (o : Outcome) (h : draftPickStep issuer uid l = (some l2, o)) :
    DraftInv l2 := by
  rw [draftPickStep] at h
  split at h
  · simp only [Prod.mk.injEq, Option.some.injEq] at h
    obtain ⟨h1, _⟩ := h
    subst h1
    exact hinv
  · rename_i hph
    split at h
    · simp only [Prod.mk.injEq, Option.some.injEq] at h
      obtain ⟨h1, _⟩ := h
      subst h1
      exact hinv
    · split at h
      · simp only [Prod.mk.injEq, Option.some.injEq] at h
        obtain ⟨h1, _⟩ := h
        subst h1
        exact hinv
      · rename_i hcapne
        split at h
        · simp only [Prod.mk.injEq, Option.some.injEq] at h
          obtain ⟨h1, _⟩ := h
          subst h1
          exact hinv
        · rename_i hunp
          split at h
          · simp only [Prod.mk.injEq, Option.some.injEq] at h
            obtain ⟨h1, _⟩ := h
            subst h1
            exact hinv
          · rename_i hmem
            split at h
            · simp only [Prod.mk.injEq, Option.some.injEq] at h
              obtain ⟨h1, _⟩ := h
              subst h1
              exact hinv
            · rename_i s hs
              exact draftApply_inv l s uid
                ⟨hinv.1, hinv.2.1, hinv.2.2.1, hinv.2.2.2.1, hinv.2.2.2.2.1,
                  hinv.2.2.2.2.2.1, hinv.2.2.2.2.2.2.1, hinv.2.2.2.2.2.2.2.1,
                  hinv.2.2.2.2.2.2.2.2⟩
                (not_not.mp hph) hs (not_not.mp hunp) hmem l2 o h

/-- A draft pick changes neither the capacity nor the roster. -/
theorem draftApply_frame (s : Side) (uid : String) (l l2 : Lobby) (o : Outcome)
    (h : draftApply s uid l = (some l2, o)) :
    l2.maxPlayers = l.maxPlayers ∧ l2.players = l.players := by
  cases s <;>
    · simp only [draftApply, startPlaying] at h
      split_ifs at h <;>
        · simp only [Prod.mk.injEq, Option.some.injEq] at h
          obtain ⟨h1, _⟩ := h
          subst h1
          exact ⟨rfl, rfl⟩

/-- The whole draft-pick handler changes neither the capacity nor the
roster. -/
theorem draftPickStep_frame (issuer uid : String) (l l2 : Lobby) (o : Outcome)
    (h : draftPickStep issuer uid l = (some l2, o)) :
    l2.maxPlayers = l.maxPlayers ∧ l2.players = l.players := by
  rw [draftPickStep] at h
  split at h
  · simp only [Prod.mk.injEq, Option.some.injEq] at h
    obtain ⟨h1, _⟩ := h
    subst h1
    exact ⟨rfl, rfl⟩
  · split at h
    · simp only [Prod.mk.injEq, Option.some.injEq] at h
      obtain ⟨h1, _⟩ := h
      subst h1
      exact ⟨rfl, rfl⟩
    · split at h
      · simp only [Prod.mk.injEq, Option.some.injEq] at h
        obtain ⟨h1, _⟩ := h
        subst h1
        exact ⟨rfl, rfl⟩
      · split at h
        · simp only [Prod.mk.injEq, Option.some.injEq] at h
          obtain ⟨h1, _⟩ := h
          subst h1
          exact ⟨rfl, rfl⟩
        · split at h
          · simp only [Prod.mk.injEq, Option.some.injEq] at h
            obtain ⟨h1, _⟩ := h
            subst h1
            exact ⟨rfl, rfl⟩
          · split at h
            · simp only [Prod.mk.injEq, Option.some.injEq] at h
              obtain ⟨h1, _⟩ := h
              subst h1
              exact ⟨rfl, rfl⟩
            · rename_i s hs
              exact draftApply_frame s uid l l2 o h

/-- Running any sequence of draft picks preserves the draft invariant and
the capacity. -/
theorem draftRun_inv (picks : List (String × String)) :
    ∀ l : Lobby, DraftInv l →
      DraftInv (draftRun l picks) ∧ (draftRun l picks).maxPlayers = l.maxPlayers := by
  induction picks with
  | nil =>
    intro l hinv
    exact ⟨hinv, rfl⟩
  | cons p ps ih =>
    intro l hinv
    have hone : DraftInv (applyCmd l (Cmd.draftPick p.1 p.2)) ∧
        (applyCmd l (Cmd.draftPick p.1 p.2)).maxPlayers = l.maxPlayers := by
      rcases he : step l (Cmd.draftPick p.1 p.2) with ⟨ol, o⟩
      cases ol with
      | none =>
        have : applyCmd l (Cmd.draftPick p.1 p.2) = l := by
          simp [applyCmd, he]
        rw [this]
        exact ⟨hinv, rfl⟩
      | some lx =>
        have hx : draftPickStep p.1 p.2 l = (some lx, o) := by
          simpa [step] using he
        have : applyCmd l (Cmd.draftPick p.1 p.2) = lx := by
          simp [applyCmd, he]
        rw [this]
        exact ⟨draftPickStep_inv p.1 p.2 l hinv lx o hx,
          (draftPickStep_frame p.1 p.2 l lx o hx).1⟩
    have hrun : draftRun l (p :: ps) = draftRun (applyCmd l (Cmd.draftPick p.1 p.2)) ps := by
      simp [draftRun]
    rw [hrun]
    obtain ⟨hrec, hmaxrec⟩ := ih (applyCmd l (Cmd.draftPick p.1 p.2)) hone.1
    exact ⟨hrec, by rw [hmaxrec, hone.2]⟩


/-- C5.  The draft allotment protocol of server.js: the selection that
enters drafting sets a first-turn allotment of one pick with team1 on the
clock; every turn switch recomputes the allotment as
`min(2, seatsRemainingForThatTeam, playersStillUnpicked)`; each applied
pick seats exactly one player; and from a drafting entry state (even
capacity at least 4, distinct roster of at least 4 containing the two
captains) every sequence of draft picks keeps both teams within
`capacity / 2`, keeps the total picked within the capacity, and leaves
strictly fewer than `capacity` picked whenever drafting continues — so
drafting finishes (transitions to playing) after at most `capacity` total
picked players. -/
theorem c5_draft_allotment_bounds :
    (∀ (l : Lobby) (issuer uid : String) (l2 : Lobby),
      step l (Cmd.selectCaptain issuer uid) = (some l2, Outcome.applied) →
      l2.phase = Phase.drafting →
      l2.picksLeft = 1 ∧ l2.currentTurn = some Side.team1) ∧
    (∀ (l : Lobby) (issuer uid : String) (l2 : Lobby),
      step l (Cmd.draftPick issuer uid) = (some l2, Outcome.applied) →
      l2.phase = Phase.drafting → l2.currentTurn ≠ l.currentTurn →
      ∃ s2, l2.currentTurn = some s2 ∧
        l2.picksLeft =
          min 2 (min (halfZ l2 - ((teamOf l2 s2).length : ℤ)) (unpickedZ l2))) ∧
    (∀ (l : Lobby) (issuer uid : String) (l2 : Lobby),
      step l (Cmd.draftPick issuer uid) = (some l2, Outcome.applied) →
      totalPicked l2 = totalPicked l + 1) ∧
    (∀ l0 : Lobby, DraftEntry l0 → ∀ picks : List (String × String),
      ((draftRun l0 picks).team1.length : ℤ) ≤ halfZ (draftRun l0 picks) ∧
      ((draftRun l0 picks).team2.length : ℤ) ≤ halfZ (draftRun l0 picks) ∧
      (totalPicked (draftRun l0 picks) : ℤ) ≤ ((draftRun l0 picks).maxPlayers : ℤ) ∧
      ((draftRun l0 picks).phase = Phase.drafting →
        (totalPicked (draftRun l0 picks) : ℤ) < ((draftRun l0 picks).maxPlayers : ℤ)) ∧
      (draftRun l0 picks).maxPlayers = l0.maxPlayers) := by
  refine ⟨?_, ?_, ?_, ?_⟩
  · -- entering drafting sets one pick for team1
    intro l issuer uid l2 h hph
    simp only [step, selectCaptainStep] at h
    split_ifs at h with g1 g2 g3 g4 g5 g6
    all_goals
      first
      | (simp at h; done)
      | (simp only [Prod.mk.injEq, Option.some.injEq, and_true] at h
         subst h
         first
         | exact ⟨rfl, rfl⟩
         | (have hph2 : l.phase = Phase.drafting := hph
            rw [not_not.mp g2] at hph2
            exact absurd hph2 (by decide)))
  · -- a turn switch recomputes the clamped allotment
    intro l issuer uid l2 h hph hne
    simp only [step] at h
    rw [draftPickStep] at h
    split at h
    · simp at h
    · split at h
      · simp at h
      · split at h
        · simp at h
        · split at h
          · simp at h
          · split at h
            · simp at h
            · split at h
              · simp at h
              · rename_i s hs
                cases s <;>
                  · simp only [draftApply] at h
                    split at h
                    · simp only [Prod.mk.injEq, Option.some.injEq, and_true] at h
                      subst h
                      have hph2 : Phase.playing = Phase.drafting := hph
                      exact absurd hph2 (by decide)
                    · split at h
                      · split at h
                        · simp only [Prod.mk.injEq, Option.some.injEq, and_true] at h
                          subst h
                          have hph2 : Phase.playing = Phase.drafting := hph
                          exact absurd hph2 (by decide)
                        · simp only [Prod.mk.injEq, Option.some.injEq, and_true] at h
                          subst h
                          exact ⟨_, rfl, rfl⟩
                      · simp only [Prod.mk.injEq, Option.some.injEq, and_true] at h
                        subst h
                        exact absurd rfl hne
  · -- each applied pick seats exactly one player
    intro l issuer uid l2 h
    simp only [step] at h
    rw [draftPickStep] at h
    split at h
    · simp at h
    · split at h
      · simp at h
      · split at h
        · simp at h
        · split at h
          · simp at h
          · split at h
            · simp at h
            · split at h
              · simp at h
              · rename_i s hs
                cases s <;>
                  · simp only [draftApply] at h
                    split at h
                    · simp only [Prod.mk.injEq, Option.some.injEq, and_true] at h
                      subst h
                      simp only [startPlaying, totalPicked, List.length_append,
                        List.length_cons, List.length_nil]
                      omega
                    · split at h
                      · split at h
                        · simp only [Prod.mk.injEq, Option.some.injEq, and_true] at h
                          subst h
                          simp only [startPlaying, totalPicked, List.length_append,
                            List.length_cons, List.length_nil]
                          omega
                        · simp only [Prod.mk.injEq, Option.some.injEq, and_true] at h
                          subst h
                          simp only [totalPicked, List.length_append,
                            List.length_cons, List.length_nil]
                          omega
                      · simp only [Prod.mk.injEq, Option.some.injEq, and_true] at h
                        subst h
                        simp only [totalPicked, List.length_append,
                          List.length_cons, List.length_nil]
                        omega
  · -- bounds and termination along any pick sequence from a clean entry
    intro l0 hent picks
    obtain ⟨hinv2, hmax⟩ := draftRun_inv picks l0 (draftEntry_draftInv l0 hent)
    obtain ⟨_, _, _, _, _, hb1, hb2, htot, hdr⟩ := hinv2
    refine ⟨hb1, hb2, htot, ?_, hmax⟩
    intro hph
    obtain ⟨s, _, _, _, _, hlt⟩ := hdr hph
    exact hlt

/-- Witness for C5: the capacity-6 drafting entry, captain A picking C
(which passes the turn to team2 with allotment `min(2, 2, 3) = 2`), and a
two-pick run. -/
theorem c5_draft_allotment_bounds_witness :
    (step oneCaptainLobby (Cmd.selectCaptain "H" "B") =
        (some secondCaptainLobby, Outcome.applied) ∧
      secondCaptainLobby.phase = Phase.drafting ∧
      (secondCaptainLobby.picksLeft = 1 ∧
        secondCaptainLobby.currentTurn = some Side.team1)) ∧
    (step draftEntryLobby (Cmd.draftPick "A" "C") =
        (some draftAfterPick, Outcome.applied) ∧
      draftAfterPick.phase = Phase.drafting ∧
      draftAfterPick.currentTurn ≠ draftEntryLobby.currentTurn ∧
      (∃ s2, draftAfterPick.currentTurn = some s2 ∧
        draftAfterPick.picksLeft =
          min 2 (min (halfZ draftAfterPick - ((teamOf draftAfterPick s2).length : ℤ))
            (unpickedZ draftAfterPick)))) ∧
    totalPicked draftAfterPick = totalPicked draftEntryLobby + 1 ∧
    (DraftEntry draftEntryLobby ∧
      (((draftRun draftEntryLobby [("A", "C"), ("B", "D")]).team1.length : ℤ) ≤
          halfZ (draftRun draftEntryLobby [("A", "C"), ("B", "D")]) ∧
        ((draftRun draftEntryLobby [("A", "C"), ("B", "D")]).team2.length : ℤ) ≤
          halfZ (draftRun draftEntryLobby [("A", "C"), ("B", "D")]) ∧
        (totalPicked (draftRun draftEntryLobby [("A", "C"), ("B", "D")]) : ℤ) ≤
          ((draftRun draftEntryLobby [("A", "C"), ("B", "D")]).maxPlayers : ℤ) ∧
        ((draftRun draftEntryLobby [("A", "C"), ("B", "D")]).phase = Phase.drafting →
          (totalPicked (draftRun draftEntryLobby [("A", "C"), ("B", "D")]) : ℤ) <
            ((draftRun draftEntryLobby [("A", "C"), ("B", "D")]).maxPlayers : ℤ)) ∧
        (draftRun draftEntryLobby [("A", "C"), ("B", "D")]).maxPlayers =
          draftEntryLobby.maxPlayers)) := by
  have hent : DraftEntry draftEntryLobby :=
    ⟨rfl, rfl, rfl, ⟨"A", "B", rfl, rfl, rfl⟩, by decide, by decide, by decide,
      by decide, by decide, by decide⟩
  refine ⟨⟨by decide, by decide, ?_⟩, ⟨by decide, by decide, by decide, ?_⟩, ?_, hent, ?_⟩
  · exact c5_draft_allotment_bounds.1 oneCaptainLobby "H" "B" secondCaptainLobby
      (by decide) (by decide)
  · exact c5_draft_allotment_bounds.2.1 draftEntryLobby "A" "C" draftAfterPick
      (by decide) (by decide) (by decide)
  · exact c5_draft_allotment_bounds.2.2.1 draftEntryLobby "A" "C" draftAfterPick (by decide)
  · exact c5_draft_allotment_bounds.2.2.2 draftEntryLobby hent [("A", "C"), ("B", "D")]

end Counterpush
